import Mathlib

/-!
Shallow embedding of the order-service microservice
(src/microservices/order-service/main.py).

The store is the module-level Python list `orders`, modelled as `List Order`.
Prices (Python floats) are modelled as rationals; timestamps (datetime.now())
and generated ids (uuid.uuid4()) are nondeterministic inputs of the process,
so they are passed to the operations as explicit parameters.
-/

namespace OrderService

/-- An order item, mirroring the Pydantic model `OrderItem`
(product_id : str, quantity : int, price : float). -/
structure OrderItem where
  product_id : String
  quantity : Int
  price : ℚ
deriving DecidableEq

/-- An order record, mirroring the dicts stored in the Python list `orders`
(the shape of `OrderResponse`). -/
structure Order where
  id : String
  user_id : String
  items : List OrderItem
  total_amount : ℚ
  status : String
  shipping_address : String
  created_at : Nat
  updated_at : Option Nat
deriving DecidableEq

/-- Domain errors raised by the handlers via `HTTPException`. -/
inductive ApiError where
  | NotFound
  | InvalidStatus
deriving DecidableEq

/-- HTTP status code each domain error is raised with
(`HTTPException(status_code=404, ...)` / `HTTPException(status_code=400, ...)`). -/
def ApiError.httpCode : ApiError → Nat
  | .NotFound => 404
  | .InvalidStatus => 400

/-- `valid_statuses = ["pending", "processing", "shipped", "delivered", "cancelled"]`
from `update_order_status`. -/
def valid_statuses : List String :=
  ["pending", "processing", "shipped", "delivered", "cancelled"]

/-- The hard-coded order dict seeded into the Python list `orders` at module
load.  `datetime.now()` at module load is the parameter `t0`. -/
def seeded_order (t0 : Nat) : Order :=
  { id := "1"
    user_id := "1"
    items := [{ product_id := "prod-1", quantity := 2, price := (2999 : ℚ) / 100 }]
    total_amount := (5998 : ℚ) / 100
    status := "pending"
    shipping_address := "123 Main St, City, Country"
    created_at := t0
    updated_at := none }

/-- The module-level seeded store: the single hard-coded order dict that the
Python list `orders` holds at process start. -/
def initial_orders (t0 : Nat) : List Order :=
  [seeded_order t0]

/-- `sum(item.price * item.quantity for item in order_data.items)`:
Python's `sum` starts from 0 and accumulates left to right over the
generator, i.e. a left fold in input order. -/
def orderTotal (items : List OrderItem) : ℚ :=
  items.foldl (fun acc it => acc + it.price * (it.quantity : ℚ)) 0

/-- Handler `create_order` (POST /api/orders): computes the total, builds the
new order dict, appends it to `orders` and returns it.  `uuid.uuid4()` and
`datetime.now()` are the parameters `newId` and `now`. -/
def create_order (st : List Order) (newId : String) (now : Nat)
    (user_id : String) (items : List OrderItem) (shipping_address : String) :
    List Order × Order :=
  let total_amount := orderTotal items
  let new_order : Order :=
    { id := newId
      user_id := user_id
      items := items
      total_amount := total_amount
      status := "pending"
      shipping_address := shipping_address
      created_at := now
      updated_at := none }
  (st ++ [new_order], new_order)

/-- Handler `get_order` (GET /api/orders/\x7border_id\x7d):
`next((o for o in orders if o["id"] == order_id), None)`, 404 when absent. -/
def get_order (st : List Order) (order_id : String) : Except ApiError Order :=
  match st.find? (fun o => o.id = order_id) with
  | none => .error .NotFound
  | some o => .ok o

/-- Handler `get_orders` (GET /api/orders): returns the whole list. -/
def get_orders (st : List Order) : List Order := st

/-- Handler `get_user_orders` (GET /api/users/\x7buser_id\x7d/orders):
`[o for o in orders if o["user_id"] == user_id]`. -/
def get_user_orders (st : List Order) (user_id : String) : List Order :=
  st.filter (fun o => o.user_id = user_id)

/-- Handler `update_order_status` (PATCH /api/orders/\x7border_id\x7d): looks up the
first order with the given id (404 when absent), validates the new status
against `valid_statuses` (400 when invalid), then mutates that order's
`status` and `updated_at` in place.  Returns the new store and the updated
order. -/
def update_order_status (st : List Order) (order_id new_status : String)
    (now : Nat) : Except ApiError (List Order × Order) :=
  match st with
  | [] => .error .NotFound
  | o :: rest =>
    if o.id = order_id then
      if new_status ∈ valid_statuses then
        let o2 := { o with status := new_status, updated_at := some now }
        .ok (o2 :: rest, o2)
      else
        .error .InvalidStatus
    else
      match update_order_status rest order_id new_status now with
      | .ok (rest2, o2) => .ok (o :: rest2, o2)
      | .error e => .error e

/-- Handler `delete_order` (DELETE /api/orders/\x7border_id\x7d): finds the index of
the first order with the given id (404 when absent) and pops it, returning
the new store and the removed order. -/
def delete_order (st : List Order) (order_id : String) :
    Except ApiError (List Order × Order) :=
  match st with
  | [] => .error .NotFound
  | o :: rest =>
    if o.id = order_id then
      .ok (rest, o)
    else
      match delete_order rest order_id with
      | .ok (rest2, d) => .ok (o :: rest2, d)
      | .error e => .error e

/-- The store left behind by a PATCH call: the Python list is mutated only on
the success path, so on a domain error the store is unchanged. -/
def update_result_store (st : List Order) (order_id new_status : String)
    (now : Nat) : List Order :=
  match update_order_status st order_id new_status now with
  | .ok (st2, _) => st2
  | .error _ => st

/-- The seeded order after a PATCH to status "shipped" at time `now`. -/
def shipped_seeded (t0 now : Nat) : Order :=
  { seeded_order t0 with status := "shipped", updated_at := some now }

/-- Store states reachable from the seeded initial store through the three
mutating handlers. -/
inductive Reachable : List Order → Prop where
  | init (t0 : Nat) : Reachable (initial_orders t0)
  | create (st : List Order) (newId : String) (now : Nat) (uid : String)
      (items : List OrderItem) (addr : String) :
      Reachable st → Reachable (create_order st newId now uid items addr).1
  | update (st : List Order) (oid s : String) (now : Nat)
      (st2 : List Order) (o : Order) :
      Reachable st → update_order_status st oid s now = .ok (st2, o) →
      Reachable st2
  | delete (st : List Order) (oid : String) (st2 : List Order) (o : Order) :
      Reachable st → delete_order st oid = .ok (st2, o) →
      Reachable st2

/- ## Helper lemmas -/

/-- Left-fold accumulation of subtotals equals the sum of the mapped list. -/
theorem orderTotal_foldl_eq_sum (items : List OrderItem) (a : ℚ) :
    items.foldl (fun acc it => acc + it.price * (it.quantity : ℚ)) a
      = a + (items.map (fun it => it.price * (it.quantity : ℚ))).sum := by
  induction items generalizing a with
  | nil => simp
  | cons it rest ih =>
    simp only [List.foldl_cons, List.map_cons, List.sum_cons]
    rw [ih]
    ring

/-- `get_order` answers NotFound exactly when no order in the store has the
requested id. -/
theorem get_order_notfound_iff (st : List Order) (oid : String) :
    get_order st oid = .error .NotFound ↔ ∀ o ∈ st, o.id ≠ oid := by
  rw [get_order]
  cases hf : st.find? (fun o => o.id = oid) with
  | none =>
    simp only [List.find?_eq_none] at hf
    simpa using hf
  | some o =>
    have hmem := List.mem_of_find?_eq_some hf
    have hid : o.id = oid := by
      have := List.find?_some hf
      simpa using this
    simp only [reduceCtorEq, false_iff, not_forall]
    exact ⟨o, hmem, not_not_intro hid⟩

/-- When every id in the store differs from the requested one,
`update_order_status` fails with NotFound (before looking at the status). -/
theorem update_notfound (st : List Order) (oid s : String) (now : Nat)
    (h : ∀ o ∈ st, o.id ≠ oid) :
    update_order_status st oid s now = .error .NotFound := by
  induction st with
  | nil => rfl
  | cons a rest ih =>
    have ha : a.id ≠ oid := h a (by simp)
    rw [update_order_status, if_neg ha, ih (fun o ho => h o (by simp [ho]))]

/-- When some order in the store has the requested id and the new status is
valid, `update_order_status` succeeds. -/
theorem update_found_valid (st : List Order) (oid s : String) (now : Nat)
    (hs : s ∈ valid_statuses) (hmem : ∃ o ∈ st, o.id = oid) :
    ∃ r, update_order_status st oid s now = .ok r := by
  induction st with
  | nil => simp at hmem
  | cons a rest ih =>
    by_cases ha : a.id = oid
    · exact ⟨_, by rw [update_order_status, if_pos ha, if_pos hs]⟩
    · obtain ⟨o, ho, hoid⟩ := hmem
      rcases List.mem_cons.mp ho with h1 | h1
      · exact absurd (h1 ▸ hoid) ha
      · obtain ⟨r, hr⟩ := ih ⟨o, h1, hoid⟩
        cases r with
        | mk rest2 o2 =>
          exact ⟨_, by rw [update_order_status, if_neg ha, hr]⟩

/-- When some order in the store has the requested id but the new status is
not one of the five recognized values, `update_order_status` fails with
InvalidStatus. -/
theorem update_invalid (st : List Order) (oid s : String) (now : Nat)
    (hmem : ∃ o ∈ st, o.id = oid) (hs : s ∉ valid_statuses) :
    update_order_status st oid s now = .error .InvalidStatus := by
  induction st with
  | nil => simp at hmem
  | cons a rest ih =>
    by_cases ha : a.id = oid
    · rw [update_order_status, if_pos ha, if_neg hs]
    · obtain ⟨o, ho, hoid⟩ := hmem
      rcases List.mem_cons.mp ho with h1 | h1
      · exact absurd (h1 ▸ hoid) ha
      · rw [update_order_status, if_neg ha, ih ⟨o, h1, hoid⟩]

/-- Anatomy of a successful `update_order_status` call: the store splits
around the first order carrying the requested id; that order is replaced by
its copy with the new status and timestamp, and nothing else changes. -/
theorem update_ok_split (st : List Order) (oid s : String) (now : Nat)
    (st2 : List Order) (o2 : Order)
    (h : update_order_status st oid s now = .ok (st2, o2)) :
    ∃ pre o post, st = pre ++ o :: post
      ∧ (∀ p ∈ pre, p.id ≠ oid)
      ∧ o.id = oid
      ∧ s ∈ valid_statuses
      ∧ o2 = { o with status := s, updated_at := some now }
      ∧ st2 = pre ++ o2 :: post := by
  induction st generalizing st2 with
  | nil => simp [update_order_status] at h
  | cons a rest ih =>
    rw [update_order_status] at h
    by_cases ha : a.id = oid
    · rw [if_pos ha] at h
      by_cases hs : s ∈ valid_statuses
      · rw [if_pos hs] at h
        simp only [Except.ok.injEq, Prod.mk.injEq] at h
        obtain ⟨h1, h2⟩ := h
        exact ⟨[], a, rest, by simp, by simp, ha, hs, h2.symm,
          by simp [← h1, h2]⟩
      · rw [if_neg hs] at h
        simp at h
    · rw [if_neg ha] at h
      cases hrec : update_order_status rest oid s now with
      | ok r =>
        cases r with
        | mk rest2 o2x =>
          rw [hrec] at h
          simp only [Except.ok.injEq, Prod.mk.injEq] at h
          obtain ⟨h1, h2⟩ := h
          obtain ⟨pre, o, post, hsplit, hpre, hid, hs, ho2, hst2⟩ :=
            ih rest2 (h2 ▸ hrec)
          refine ⟨a :: pre, o, post, by simp [hsplit], ?_, hid, hs, ho2, ?_⟩
          · intro p hp
            rcases List.mem_cons.mp hp with h3 | h3
            · exact h3 ▸ ha
            · exact hpre p h3
          · simp [← h1, hst2]
      | error e =>
        rw [hrec] at h
        simp at h

/-- When every id in the store differs from the requested one, `delete_order`
fails with NotFound. -/
theorem delete_notfound (st : List Order) (oid : String)
    (h : ∀ o ∈ st, o.id ≠ oid) :
    delete_order st oid = .error .NotFound := by
  induction st with
  | nil => rfl
  | cons a rest ih =>
    have ha : a.id ≠ oid := h a (by simp)
    rw [delete_order, if_neg ha, ih (fun o ho => h o (by simp [ho]))]

/-- When some order in the store has the requested id, `delete_order`
succeeds. -/
theorem delete_found (st : List Order) (oid : String)
    (hmem : ∃ o ∈ st, o.id = oid) :
    ∃ r, delete_order st oid = .ok r := by
  induction st with
  | nil => simp at hmem
  | cons a rest ih =>
    by_cases ha : a.id = oid
    · exact ⟨_, by rw [delete_order, if_pos ha]⟩
    · obtain ⟨o, ho, hoid⟩ := hmem
      rcases List.mem_cons.mp ho with h1 | h1
      · exact absurd (h1 ▸ hoid) ha
      · obtain ⟨r, hr⟩ := ih ⟨o, h1, hoid⟩
        cases r with
        | mk rest2 d =>
          exact ⟨_, by rw [delete_order, if_neg ha, hr]⟩

/-- Anatomy of a successful `delete_order` call: the store splits around the
first order carrying the requested id; that order is removed and returned,
and nothing else changes. -/
theorem delete_ok_split (st : List Order) (oid : String)
    (st2 : List Order) (d : Order)
    (h : delete_order st oid = .ok (st2, d)) :
    d.id = oid
      ∧ ∃ pre post, st = pre ++ d :: post
        ∧ (∀ p ∈ pre, p.id ≠ oid)
        ∧ st2 = pre ++ post := by
  induction st generalizing st2 with
  | nil => simp [delete_order] at h
  | cons a rest ih =>
    rw [delete_order] at h
    by_cases ha : a.id = oid
    · rw [if_pos ha] at h
      simp only [Except.ok.injEq, Prod.mk.injEq] at h
      obtain ⟨h1, h2⟩ := h
      exact ⟨h2 ▸ ha, [], rest, by simp [h2], by simp, h1.symm⟩
    · rw [if_neg ha] at h
      cases hrec : delete_order rest oid with
      | ok r =>
        cases r with
        | mk rest2 dx =>
          rw [hrec] at h
          simp only [Except.ok.injEq, Prod.mk.injEq] at h
          obtain ⟨h1, h2⟩ := h
          obtain ⟨hid, pre, post, hsplit, hpre, hst2⟩ := ih rest2 (h2 ▸ hrec)
          refine ⟨hid, a :: pre, post, by simp [hsplit], ?_, by simp [← h1, hst2]⟩
          intro p hp
          rcases List.mem_cons.mp hp with h3 | h3
          · exact h3 ▸ ha
          · exact hpre p h3
      | error e =>
        rw [hrec] at h
        simp at h

/- ## Claims -/

/-- C1: for every valid sequence of items, `create_order` computes
`total_amount` as the sum of price × quantity over the items, accumulated in
input order (a left fold from 0 following the order of the items in the
request), which equals the sum of the per-item subtotals. -/
theorem create_order_total_amount (st : List Order) (newId : String)
    (now : Nat) (uid : String) (items : List OrderItem) (addr : String) :
    (create_order st newId now uid items addr).2.total_amount
        = items.foldl (fun acc it => acc + it.price * (it.quantity : ℚ)) 0
      ∧ (create_order st newId now uid items addr).2.total_amount
        = (items.map (fun it => it.price * (it.quantity : ℚ))).sum := by
  refine ⟨rfl, ?_⟩
  show orderTotal items = _
  rw [orderTotal, orderTotal_foldl_eq_sum]
  simp

/-- C3: `create_order` returns an Order carrying the generated id, status
"pending", no `updated_at`, `created_at` = now, the caller-supplied user_id,
items and shipping_address, and appends exactly that Order to the store. -/
theorem create_order_spec (st : List Order) (newId : String) (now : Nat)
    (uid : String) (items : List OrderItem) (addr : String) :
    (create_order st newId now uid items addr).2.id = newId
      ∧ (create_order st newId now uid items addr).2.status = "pending"
      ∧ (create_order st newId now uid items addr).2.updated_at = none
      ∧ (create_order st newId now uid items addr).2.created_at = now
      ∧ (create_order st newId now uid items addr).2.user_id = uid
      ∧ (create_order st newId now uid items addr).2.items = items
      ∧ (create_order st newId now uid items addr).2.shipping_address = addr
      ∧ (create_order st newId now uid items addr).1
        = st ++ [(create_order st newId now uid items addr).2] :=
  ⟨rfl, rfl, rfl, rfl, rfl, rfl, rfl, rfl⟩

/-- C9: the initial store holds exactly one pre-seeded order with id "1",
user_id "1", one item (prod-1, quantity 2, price 29.99), total_amount 59.98,
status "pending" and updated_at null, and `get_orders` on the initial store
returns exactly this one order. -/
theorem initial_store_spec (t0 : Nat) :
    ∃ o : Order, initial_orders t0 = [o]
      ∧ get_orders (initial_orders t0) = [o]
      ∧ o.id = "1"
      ∧ o.user_id = "1"
      ∧ o.items = [{ product_id := "prod-1", quantity := 2,
                     price := (2999 : ℚ) / 100 }]
      ∧ o.total_amount = (5998 : ℚ) / 100
      ∧ o.status = "pending"
      ∧ o.updated_at = none :=
  ⟨seeded_order t0, rfl, rfl, rfl, rfl, rfl, rfl, rfl, rfl⟩

/-- `List.find?` on a list ending in a matching element, when nothing before
it matches, returns that element. -/
theorem find_append_fresh (st : List Order) (o : Order) (oid : String)
    (ho : o.id = oid) (hfresh : ∀ p ∈ st, p.id ≠ oid) :
    (st ++ [o]).find? (fun p => p.id = oid) = some o := by
  induction st with
  | nil => simp [ho]
  | cons a rest ih =>
    have ha : a.id ≠ oid := hfresh a (by simp)
    rw [List.cons_append, List.find?_cons_of_neg _ (by simpa using ha)]
    exact ih (fun p hp => hfresh p (by simp [hp]))

/-- C2: on an id that is present in the store, `update_order_status` succeeds
exactly when the new status is one of the five recognized values, regardless
of the order's current status; for any other string it fails with
InvalidStatus (HTTP 400) and the store is unchanged by the failed call. -/
theorem update_status_valid_iff (st : List Order) (oid s : String) (now : Nat)
    (hmem : ∃ o ∈ st, o.id = oid) :
    ((∃ r, update_order_status st oid s now = .ok r) ↔ s ∈ valid_statuses)
    ∧ (s ∉ valid_statuses →
        update_order_status st oid s now = .error .InvalidStatus
        ∧ ApiError.httpCode .InvalidStatus = 400
        ∧ update_result_store st oid s now = st) := by
  constructor
  · constructor
    · rintro ⟨⟨st2, o2⟩, hr⟩
      obtain ⟨pre, o, post, h1, h2, h3, hs, h5, h6⟩ :=
        update_ok_split st oid s now st2 o2 hr
      exact hs
    · intro hs
      exact update_found_valid st oid s now hs hmem
  · intro hs
    have he := update_invalid st oid s now hmem hs
    exact ⟨he, rfl, by rw [update_result_store, he]⟩

/-- C2 witness: seeded store, id "1", status "bogus". -/
theorem update_status_valid_iff_witness :
    (∃ o ∈ initial_orders 0, o.id = "1")
    ∧ (((∃ r, update_order_status (initial_orders 0) "1" "bogus" 7 = .ok r)
          ↔ "bogus" ∈ valid_statuses)
      ∧ ("bogus" ∉ valid_statuses →
          update_order_status (initial_orders 0) "1" "bogus" 7
            = .error .InvalidStatus
          ∧ ApiError.httpCode .InvalidStatus = 400
          ∧ update_result_store (initial_orders 0) "1" "bogus" 7
            = initial_orders 0)) :=
  ⟨⟨seeded_order 0, by simp [initial_orders], rfl⟩,
   update_status_valid_iff (initial_orders 0) "1" "bogus" 7
     ⟨seeded_order 0, by simp [initial_orders], rfl⟩⟩

/-- C4: `delete_order` fails with NotFound exactly when the id is absent;
on success it removes exactly the matching order from the store, returns it,
and a subsequent `get_order` on the same id fails with NotFound (under the
spec's invariant that ids are unique across the store). -/
theorem delete_order_spec (st : List Order) (oid : String)
    (hnd : (st.map Order.id).Nodup) :
    (delete_order st oid = .error .NotFound ↔ ∀ o ∈ st, o.id ≠ oid)
    ∧ ∀ st2 d, delete_order st oid = .ok (st2, d) →
        d.id = oid
        ∧ (∃ pre post, st = pre ++ d :: post ∧ st2 = pre ++ post)
        ∧ get_order st2 oid = .error .NotFound := by
  constructor
  · constructor
    · intro h o ho hoid
      obtain ⟨r, hr⟩ := delete_found st oid ⟨o, ho, hoid⟩
      rw [h] at hr
      exact absurd hr (by simp)
    · exact delete_notfound st oid
  · intro st2 d h
    obtain ⟨hid, pre, post, hsplit, hpre, hst2⟩ := delete_ok_split st oid st2 d h
    refine ⟨hid, ⟨pre, post, hsplit, hst2⟩, ?_⟩
    rw [get_order_notfound_iff]
    intro p hp
    rw [hst2] at hp
    rcases List.mem_append.mp hp with h1 | h1
    · exact hpre p h1
    · rw [hsplit] at hnd
      simp only [List.map_append, List.map_cons] at hnd
      have h2 := (List.nodup_cons.mp hnd.of_append_right).1
      intro hcon
      apply h2
      rw [hid, ← hcon]
      exact List.mem_map_of_mem Order.id h1

/-- C4 witness: seeded store, id "1". -/
theorem delete_order_spec_witness :
    ((initial_orders 0).map Order.id).Nodup
    ∧ ((delete_order (initial_orders 0) "1" = .error .NotFound
          ↔ ∀ o ∈ initial_orders 0, o.id ≠ "1")
      ∧ ∀ st2 d, delete_order (initial_orders 0) "1" = .ok (st2, d) →
          d.id = "1"
          ∧ (∃ pre post, initial_orders 0 = pre ++ d :: post ∧ st2 = pre ++ post)
          ∧ get_order st2 "1" = .error .NotFound) :=
  ⟨by simp [initial_orders],
   delete_order_spec (initial_orders 0) "1" (by simp [initial_orders])⟩

/-- C5: after a `create_order` whose generated id is fresh for the store,
`get_order` on the returned id returns the very Order that `create_order`
returned. -/
theorem create_then_get (st : List Order) (newId : String) (now : Nat)
    (uid : String) (items : List OrderItem) (addr : String)
    (hfresh : ∀ o ∈ st, o.id ≠ newId) :
    get_order (create_order st newId now uid items addr).1 newId
      = .ok (create_order st newId now uid items addr).2 := by
  rw [get_order,
    show (create_order st newId now uid items addr).1
      = st ++ [(create_order st newId now uid items addr).2] from rfl,
    find_append_fresh st (create_order st newId now uid items addr).2
      newId rfl hfresh]

/-- C5 witness: seeded store, fresh id "abc". -/
theorem create_then_get_witness :
    (∀ o ∈ initial_orders 0, o.id ≠ "abc")
    ∧ get_order (create_order (initial_orders 0) "abc" 3 "u7" [] "addr").1 "abc"
      = .ok (create_order (initial_orders 0) "abc" 3 "u7" [] "addr").2 :=
  ⟨by simp [initial_orders, seeded_order],
   create_then_get (initial_orders 0) "abc" 3 "u7" [] "addr"
     (by simp [initial_orders, seeded_order])⟩

/-- C6: `get_user_orders` returns exactly the orders whose user_id matches,
preserving the store's insertion order (the result is a sublist of the
store), and returns the empty list (not an error) when no order matches. -/
theorem get_user_orders_spec (st : List Order) (u : String) :
    List.Sublist (get_user_orders st u) st
    ∧ (∀ o ∈ get_user_orders st u, o.user_id = u)
    ∧ (∀ o ∈ st, o.user_id = u → o ∈ get_user_orders st u)
    ∧ ((∀ o ∈ st, o.user_id ≠ u) → get_user_orders st u = []) := by
  refine ⟨List.filter_sublist st, ?_, ?_, ?_⟩
  · intro o ho
    have h := (List.mem_filter.mp ho).2
    simpa using h
  · intro o ho hu
    exact List.mem_filter.mpr ⟨ho, by simp [hu]⟩
  · intro h
    rw [get_user_orders, List.filter_eq_nil_iff]
    intro o ho
    simpa using h o ho

/-- C6 witness: seeded store, user "2" (no orders). -/
theorem get_user_orders_spec_witness :
    List.Sublist (get_user_orders (initial_orders 0) "2") (initial_orders 0)
    ∧ (∀ o ∈ get_user_orders (initial_orders 0) "2", o.user_id = "2")
    ∧ (∀ o ∈ initial_orders 0, o.user_id = "2" →
        o ∈ get_user_orders (initial_orders 0) "2")
    ∧ ((∀ o ∈ initial_orders 0, o.user_id ≠ "2") →
        get_user_orders (initial_orders 0) "2" = []) :=
  get_user_orders_spec (initial_orders 0) "2"

/-- C7: a successful `update_order_status` modifies only the status and
updated_at fields of the matched order (setting status to the new value and
updated_at to now); its id, user_id, items, total_amount, shipping_address
and created_at are unchanged, and every other order in the store (before and
after the matched one) is unchanged. -/
theorem update_status_frame (st : List Order) (oid s : String) (now : Nat)
    (st2 : List Order) (o2 : Order)
    (h : update_order_status st oid s now = .ok (st2, o2)) :
    ∃ pre o post, st = pre ++ o :: post
      ∧ o2.status = s
      ∧ o2.updated_at = some now
      ∧ o2.id = o.id
      ∧ o2.user_id = o.user_id
      ∧ o2.items = o.items
      ∧ o2.total_amount = o.total_amount
      ∧ o2.shipping_address = o.shipping_address
      ∧ o2.created_at = o.created_at
      ∧ st2 = pre ++ o2 :: post := by
  obtain ⟨pre, o, post, h1, h2, h3, hs, ho2, h6⟩ :=
    update_ok_split st oid s now st2 o2 h
  subst ho2
  exact ⟨pre, o, post, h1, rfl, rfl, rfl, rfl, rfl, rfl, rfl, rfl, h6⟩

/-- C7 witness: seeded store, id "1", status "shipped". -/
theorem update_status_frame_witness :
    (update_order_status (initial_orders 0) "1" "shipped" 9
        = .ok ([shipped_seeded 0 9], shipped_seeded 0 9))
    ∧ ∃ pre o post, initial_orders 0 = pre ++ o :: post
      ∧ (shipped_seeded 0 9).status = "shipped"
      ∧ (shipped_seeded 0 9).updated_at = some 9
      ∧ (shipped_seeded 0 9).id = o.id
      ∧ (shipped_seeded 0 9).user_id = o.user_id
      ∧ (shipped_seeded 0 9).items = o.items
      ∧ (shipped_seeded 0 9).total_amount = o.total_amount
      ∧ (shipped_seeded 0 9).shipping_address = o.shipping_address
      ∧ (shipped_seeded 0 9).created_at = o.created_at
      ∧ [shipped_seeded 0 9] = pre ++ shipped_seeded 0 9 :: post :=
  ⟨rfl, update_status_frame (initial_orders 0) "1" "shipped" 9
     [shipped_seeded 0 9] (shipped_seeded 0 9) rfl⟩

/-- C8: in every store state reachable from the initial state via
`create_order`, `update_order_status` and `delete_order`, the status of every
order in the store is one of the five recognized values. -/
theorem reachable_status_valid (st : List Order) (h : Reachable st) :
    ∀ o ∈ st, o.status ∈ valid_statuses := by
  induction h with
  | init t0 =>
    intro o ho
    simp only [initial_orders, List.mem_singleton] at ho
    subst ho
    simp [seeded_order, valid_statuses]
  | create st newId now uid items addr hr ih =>
    intro o ho
    rcases List.mem_append.mp ho with h1 | h1
    · exact ih o h1
    · rw [List.mem_singleton] at h1
      subst h1
      simp [valid_statuses]
  | update st oid s now st2 o hr heq ih =>
    obtain ⟨pre, oo, post, hsplit, hpre, hid, hs, ho2, hst2⟩ :=
      update_ok_split st oid s now st2 o heq
    intro p hp
    rw [hst2] at hp
    rcases List.mem_append.mp hp with h1 | h1
    · refine ih p ?_
      rw [hsplit]
      exact List.mem_append.mpr (Or.inl h1)
    · rcases List.mem_cons.mp h1 with h2 | h2
      · subst h2
        rw [ho2]
        exact hs
      · refine ih p ?_
        rw [hsplit]
        exact List.mem_append.mpr (Or.inr (List.mem_cons.mpr (Or.inr h2)))
  | delete st oid st2 d hr heq ih =>
    obtain ⟨hid, pre, post, hsplit, hpre, hst2⟩ := delete_ok_split st oid st2 d heq
    intro p hp
    rw [hst2] at hp
    refine ih p ?_
    rw [hsplit]
    rcases List.mem_append.mp hp with h1 | h1
    · exact List.mem_append.mpr (Or.inl h1)
    · exact List.mem_append.mpr (Or.inr (List.mem_cons.mpr (Or.inr h1)))

/-- C8 witness: the initial store is reachable and satisfies the invariant. -/
theorem reachable_status_valid_witness :
    Reachable (initial_orders 0)
    ∧ ∀ o ∈ initial_orders 0, o.status ∈ valid_statuses :=
  ⟨Reachable.init 0, reachable_status_valid (initial_orders 0) (Reachable.init 0)⟩

/-- C10: when the id is absent from the store and the status is not one of
the five recognized values, NotFound (HTTP 404) takes precedence over
InvalidStatus: the id lookup happens before the status validation. -/
theorem update_notfound_precedence (st : List Order) (oid s : String)
    (now : Nat) (habs : ∀ o ∈ st, o.id ≠ oid) (_hinv : s ∉ valid_statuses) :
    update_order_status st oid s now = .error .NotFound
    ∧ ApiError.httpCode .NotFound = 404
    ∧ update_order_status st oid s now ≠ .error .InvalidStatus := by
  have h := update_notfound st oid s now habs
  refine ⟨h, rfl, ?_⟩
  rw [h]
  simp

/-- C10 witness: seeded store, absent id "zzz", invalid status "bogus". -/
theorem update_notfound_precedence_witness :
    (∀ o ∈ initial_orders 0, o.id ≠ "zzz")
    ∧ "bogus" ∉ valid_statuses
    ∧ (update_order_status (initial_orders 0) "zzz" "bogus" 4 = .error .NotFound
      ∧ ApiError.httpCode .NotFound = 404
      ∧ update_order_status (initial_orders 0) "zzz" "bogus" 4
          ≠ .error .InvalidStatus) :=
  ⟨by simp [initial_orders, seeded_order], by decide,
   update_notfound_precedence (initial_orders 0) "zzz" "bogus" 4
     (by simp [initial_orders, seeded_order]) (by decide)⟩

end OrderService
